import Mathlib

/-!
Verification of the `micrograd` scalar reverse-mode autodiff engine
(`micrograd/engine.py`) against its specification.

The Python heap of `Value` objects is modelled as an append-only list of
nodes indexed by natural-number ids (`State`).  A node created by an
operator always refers to previously existing nodes, so every child id is
strictly smaller than the parent id; this is the acyclicity invariant `WF`.

The per-node `_backward` closure of the source is modelled by the tagged
variant `BackRule` carrying exactly the object references the Python
closure captures; `runBackward` interprets a rule exactly as the closure
body executes (sequential `+=` updates, re-reading the heap between the
two statements of a binary rule).

Scalar values are taken in an arbitrary field `α` (instantiated at `ℚ`
for executable checks and at `ℝ` for the analytic `tanh` facts); the
Python float exponent of `**` is modelled as an integer constant, which
covers every exponent the source and the specification exercise.
-/

set_option linter.unusedSectionVars false

namespace Micrograd

/-- The stored `_backward` closure of a node: which rule it is and which
operand nodes (by id) it captured.  `leaf` is the default no-op closure
installed by `Value.__init__`. -/
inductive BackRule where
  | leaf : BackRule
  | addR (i j : Nat) : BackRule
  | mulR (i j : Nat) : BackRule
  | powR (i : Nat) (n : ℤ) : BackRule
  | expR (i : Nat) : BackRule
  | tanhR (i : Nat) : BackRule
deriving DecidableEq

/-- The ids a rule's body increments the `grad` field of (the closure's
captured operands). -/
def BackRule.targets : BackRule → List Nat
  | .leaf => []
  | .addR i j => [i, j]
  | .mulR i j => [i, j]
  | .powR i _ => [i]
  | .expR i => [i]
  | .tanhR i => [i]

/-- One `Value` object: `data`, `grad`, the set `_prev` of children
(stored as a duplicate-free list of ids), the diagnostic `_op` label and
the stored backward closure. -/
structure Node (α : Type) where
  data : α
  grad : α
  prev : List Nat
  op : Option String
  bwd : BackRule
deriving DecidableEq

/-- The heap: all `Value` objects ever constructed, indexed by id in
creation order. -/
structure State (α : Type) where
  nodes : List (Node α)
deriving DecidableEq

variable {α : Type} [Field α]

/-- The leaf constructor `Value(data)`: children empty, grad 0, no-op
backward closure. -/
def Value (c : α) : Node α := ⟨c, 0, [], none, .leaf⟩

namespace State

/-- Dereference an id (out-of-range ids, which cannot arise from the
API, give a default leaf). -/
def get (s : State α) (i : Nat) : Node α := s.nodes.getD i ⟨0, 0, [], none, .leaf⟩

/-- Allocate a fresh node, returning the new heap and the new id. -/
def push (s : State α) (v : Node α) : State α × Nat := (⟨s.nodes ++ [v]⟩, s.nodes.length)

/-- Assign a node's `grad` field in place. -/
def setGrad (s : State α) (i : Nat) (g : α) : State α :=
  ⟨s.nodes.set i { s.get i with grad := g }⟩

/-- The `+=` statement on a node's `grad` field. -/
def addGrad (s : State α) (i : Nat) (g : α) : State α := s.setGrad i ((s.get i).grad + g)

end State

/-- An operand position of a binary operator: either an existing node or
a plain number (Python duck-typing). -/
inductive Operand (α : Type) where
  | node (i : Nat) : Operand α
  | const (c : α) : Operand α

/-- The coercion `other if isinstance(other, Value) else Value(other)`
performed at every binary-operator boundary. -/
def coerce (s : State α) : Operand α → State α × Nat
  | .node i => (s, i)
  | .const c => s.push (Value c)

/-- The operator `Value.__add__`: coerce the right operand, build the sum
node whose children are the set of the distinct operands, and install the
addition backward rule. -/
def addV (s : State α) (i : Nat) (o : Operand α) : State α × Nat :=
  let p := coerce s o
  p.1.push ⟨(p.1.get i).data + (p.1.get p.2).data, 0, List.dedup [i, p.2], some "+",
    .addR i p.2⟩

/-- The operator `Value.__mul__`. -/
def mulV (s : State α) (i : Nat) (o : Operand α) : State α × Nat :=
  let p := coerce s o
  p.1.push ⟨(p.1.get i).data * (p.1.get p.2).data, 0, List.dedup [i, p.2], some "*",
    .mulR i p.2⟩

/-- The operator `Value.__neg__`, defined in the source as `self * -1`. -/
def negV (s : State α) (i : Nat) : State α × Nat := mulV s i (.const (-1))

/-- The body of `Value.__pow__` after its exponent-type assertion has
passed: the exponent is a plain integer constant. -/
def powConst (s : State α) (i : Nat) (n : ℤ) : State α × Nat :=
  s.push ⟨(s.get i).data ^ n, 0, [i], some "**", .powR i n⟩

/-- The dynamic type of the exponent handed to `**`: a `Value` node or a
numeric constant (the Python `int`/`float` case, modelled as `ℤ`). -/
inductive PowArg where
  | node (j : Nat) : PowArg
  | const (n : ℤ) : PowArg

/-- The error raised by `Value.__pow__` when the exponent is a node
(the `assert isinstance(other, (int, float))` failing). -/
inductive MicroError where
  | unsupportedExponentType : MicroError
deriving DecidableEq

/-- The operator `Value.__pow__`: the exponent-type check runs before any
node is constructed, so on failure the heap is returned untouched. -/
def powV (s : State α) (i : Nat) : PowArg → State α × Except MicroError Nat
  | .node _ => (s, .error .unsupportedExponentType)
  | .const n => let p := powConst s i n; (p.1, .ok p.2)

/-- The operator `Value.__sub__`, defined in the source as
`self + (-other)`: a numeric operand is negated as a number, a node
operand goes through `Value.__neg__`. -/
def subV (s : State α) (i : Nat) : Operand α → State α × Nat
  | .const c => addV s i (.const (-c))
  | .node j => let p := negV s j; addV p.1 i (.node p.2)

/-- The operator `Value.__truediv__`, defined in the source as
`self * other ** -1` after coercing `other`. -/
def divV (s : State α) (i : Nat) (o : Operand α) : State α × Nat :=
  let p := coerce s o
  let q := powConst p.1 p.2 (-1)
  mulV q.1 i (.node q.2)

/-- The method `Value.exp`; `expf` stands for the ambient `math.exp`. -/
def expV (expf : α → α) (s : State α) (i : Nat) : State α × Nat :=
  s.push ⟨expf (s.get i).data, 0, [i], some "exp", .expR i⟩

/-- The method `Value.tanh`, computing
`(e ** (2x) - 1) / (e ** (2x) + 1)` on the forward pass. -/
def tanhV (expf : α → α) (s : State α) (i : Nat) : State α × Nat :=
  s.push ⟨(expf (2 * (s.get i).data) - 1) / (expf (2 * (s.get i).data) + 1), 0, [i],
    some "tanh", .tanhR i⟩

/-- Run one stored backward closure, exactly as the Python closure body
executes: sequential `+=` updates that re-read the heap between the two
statements of a binary rule. -/
def runBackward (s : State α) (o : Nat) : State α :=
  match (s.get o).bwd with
  | .leaf => s
  | .addR i j =>
      let s1 := s.addGrad i (s.get o).grad
      s1.addGrad j (s1.get o).grad
  | .mulR i j =>
      let s1 := s.addGrad i ((s.get j).data * (s.get o).grad)
      s1.addGrad j ((s1.get i).data * (s1.get o).grad)
  | .powR i n =>
      s.addGrad i ((n : α) * (s.get i).data ^ (n - 1) * (s.get o).grad)
  | .expR i => s.addGrad i ((s.get o).data * (s.get o).grad)
  | .tanhR i => s.addGrad i ((1 - (s.get o).data ^ 2) * (s.get o).grad)

/-- Accumulator of `build_topo`: the `visited` set and the post-order
output sequence `topo`. -/
structure TopoAcc where
  visited : List Nat
  topo : List Nat

/-- The loop `for child in v._prev: build_topo(child)` of the source:
fold the recursive call over the list of children, threading the
accumulator. -/
def buildTopoStep (f : Nat → TopoAcc → TopoAcc) : List Nat → TopoAcc → TopoAcc
  | [], acc => acc
  | c :: cs, acc => buildTopoStep f cs (f c acc)

/-- The statement `topo.append(v)` closing one `build_topo` call: keep the
visited set, append the current node to the output sequence. -/
def finishTopo (v : Nat) (a : TopoAcc) : TopoAcc := ⟨a.visited, a.topo ++ [v]⟩

/-- The recursive `build_topo` of `Value.backward`: depth-first, skipping
visited nodes, recursing into all children before appending the current
node.  The `fuel` argument bounds the recursion depth only; since every
child id is strictly smaller than its parent id, fuel `v + 1` is always
enough to explore the whole subgraph below node `v` (the source recurses
unboundedly and would simply not terminate on a malformed cyclic heap). -/
def buildTopo (s : State α) : Nat → Nat → TopoAcc → TopoAcc
  | 0, _, acc => acc
  | fuel + 1, v, acc =>
      if v ∈ acc.visited then acc
      else finishTopo v
        (buildTopoStep (buildTopo s fuel) ((s.get v).prev) ⟨v :: acc.visited, acc.topo⟩)

/-- The post-order sequence `topo` computed by `Value.backward` starting
from root `r` with empty visited set. -/
def topoList (s : State α) (r : Nat) : List Nat := (buildTopo s (r + 1) r ⟨[], []⟩).topo

/-- The driver `Value.backward`: build the topological order, set the
root's grad to 1.0, then run every node's stored backward closure along
the reversed order. -/
def backward (s : State α) (r : Nat) : State α :=
  let topo := topoList s r
  let s1 := s.setGrad r 1
  topo.reverse.foldl (fun st v => runBackward st v) s1

/-- Reset `grad` to 0 on every node reachable from `r` (the caller-side
reset the specification requires between backward passes; the reachable
set is exactly the traversal's `topo` set). -/
def zeroReachable (s : State α) (r : Nat) : State α :=
  (topoList s r).foldl (fun st v => st.setGrad v 0) s

/-- Well-formedness of a heap: every child id is strictly smaller than
its parent's id (nodes are built only from pre-existing nodes, which is
what makes the graph acyclic), and a node's stored closure increments
exactly nodes among its children. -/
def WF (s : State α) : Prop :=
  ∀ i, i < s.nodes.length →
    (∀ c ∈ (s.get i).prev, c < i) ∧ (∀ t ∈ (s.get i).bwd.targets, t ∈ (s.get i).prev)

instance (s : State α) : Decidable (WF s) := by
  unfold WF; infer_instance

/-- Reachability through `_prev` edges (a node reaches itself). -/
inductive Reaches (s : State α) : Nat → Nat → Prop where
  | refl (v : Nat) : Reaches s v v
  | step {v c w : Nat} : c ∈ (s.get v).prev → Reaches s c w → Reaches s v w

/-- Two heaps with the same length and the same `data`, `prev`, `op` and
`bwd` at every id (they may differ in `grad` only). -/
def SameShape (s t : State α) : Prop :=
  s.nodes.length = t.nodes.length ∧
    ∀ k, (s.get k).data = (t.get k).data ∧ (s.get k).prev = (t.get k).prev ∧
      (s.get k).op = (t.get k).op ∧ (s.get k).bwd = (t.get k).bwd

/-- A list of ids is in post-order: every element's children occur
strictly earlier in the list. -/
def PostOrd (s : State α) (L : List Nat) : Prop :=
  ∀ i, i < L.length → ∀ c ∈ (s.get (L.getD i 0)).prev, c ∈ L.take i

/-- Invariant of the `build_topo` accumulator: the output sequence has no
duplicates, sits inside the visited set, and is in post-order. -/
def TopoInv (s : State α) (acc : TopoAcc) : Prop :=
  acc.topo.Nodup ∧ (∀ x ∈ acc.topo, x ∈ acc.visited) ∧ PostOrd s acc.topo

/-- Postcondition of one `build_topo` call on node `v`, taking the
accumulator from `acc` to `A`. -/
structure DfsOut (s : State α) (v : Nat) (acc A : TopoAcc) : Prop where
  topo_ext : ∃ t, A.topo = acc.topo ++ t
  topo_new : ∀ x ∈ A.topo, x ∈ acc.topo ∨ (x ≤ v ∧ Reaches s v x)
  vis_mono : ∀ x ∈ acc.visited, x ∈ A.visited
  gray_sub : ∀ g ∈ A.visited, g ∉ A.topo → g ∈ acc.visited ∧ g ∉ acc.topo
  inv : TopoInv s A
  self_mem : v ∈ A.topo
  complete : ∀ x, Reaches s v x → x ∈ A.topo

/-- Postcondition of the fold of `build_topo` over a list of children. -/
structure DfsListOut (s : State α) (l : List Nat) (acc A : TopoAcc) : Prop where
  topo_ext : ∃ t, A.topo = acc.topo ++ t
  topo_new : ∀ x ∈ A.topo, x ∈ acc.topo ∨ ∃ c ∈ l, x ≤ c ∧ Reaches s c x
  vis_mono : ∀ x ∈ acc.visited, x ∈ A.visited
  gray_sub : ∀ g ∈ A.visited, g ∉ A.topo → g ∈ acc.visited ∧ g ∉ acc.topo
  inv : TopoInv s A
  mem : ∀ c ∈ l, c ∈ A.topo
  complete : ∀ c ∈ l, ∀ x, Reaches s c x → x ∈ A.topo

/-- Fixture used to test repeated backward passes: build x := Value(3.0),
y1 := x + x, run y1.backward() (leaving x.grad = 2), then build y2 := x + x.
The result is the heap together with the id of y2. -/
def resetScenario : State ℚ × Nat :=
  let p1 := addV (⟨[Value (3 : ℚ)]⟩ : State ℚ) 0 (.node 0)
  let s1 := backward p1.1 p1.2
  addV s1 0 (.node 0)

section StateLemmas

@[simp] theorem State.length_push (s : State α) (v : Node α) :
    (s.push v).1.nodes.length = s.nodes.length + 1 := by
  simp [State.push]

@[simp] theorem State.push_snd (s : State α) (v : Node α) :
    (s.push v).2 = s.nodes.length := rfl

theorem State.get_push_self (s : State α) (v : Node α) :
    (s.push v).1.get s.nodes.length = v := by
  simp [State.push, State.get, List.getD_eq_getElem?_getD]

theorem State.get_push_lt (s : State α) (v : Node α) (i : Nat)
    (h : i < s.nodes.length) : (s.push v).1.get i = s.get i := by
  simp [State.push, State.get, List.getD_eq_getElem?_getD, List.getElem?_append_left h]

theorem State.get_of_length_le (s : State α) (i : Nat) (h : s.nodes.length ≤ i) :
    s.get i = ⟨0, 0, [], none, .leaf⟩ := by
  simp [State.get, List.getD_eq_getElem?_getD, List.getElem?_eq_none h]

@[simp] theorem State.get_push (s : State α) (v : Node α) (i : Nat) :
    (s.push v).1.get i = if i = s.nodes.length then v else s.get i := by
  rcases Nat.lt_trichotomy i s.nodes.length with h | h | h
  · rw [State.get_push_lt s v i h, if_neg (by omega)]
  · subst h; rw [State.get_push_self, if_pos rfl]
  · rw [if_neg (by omega),
      State.get_of_length_le (s.push v).1 i (by rw [State.length_push]; omega),
      State.get_of_length_le s i (by omega)]

@[simp] theorem State.length_setGrad (s : State α) (i : Nat) (g : α) :
    (s.setGrad i g).nodes.length = s.nodes.length := by
  simp [State.setGrad]

theorem State.get_setGrad_self (s : State α) (i : Nat) (g : α)
    (h : i < s.nodes.length) : (s.setGrad i g).get i = { s.get i with grad := g } := by
  simp [State.setGrad, State.get, List.getD_eq_getElem?_getD, List.getElem?_set_self h]

theorem State.get_setGrad_ne (s : State α) (i : Nat) (g : α) (k : Nat)
    (h : k ≠ i) : (s.setGrad i g).get k = s.get k := by
  simp [State.setGrad, State.get, List.getD_eq_getElem?_getD,
    List.getElem?_set_ne (Ne.symm h)]

@[simp] theorem State.get_setGrad (s : State α) (i : Nat) (g : α) (k : Nat) :
    (s.setGrad i g).get k =
      if k = i ∧ i < s.nodes.length then { s.get i with grad := g } else s.get k := by
  by_cases hk : k = i
  · subst hk
    by_cases h : k < s.nodes.length
    · rw [State.get_setGrad_self s k g h, if_pos ⟨rfl, h⟩]
    · rw [if_neg (by tauto)]
      have h2 : (s.setGrad k g).nodes = s.nodes := List.set_eq_of_length_le (by omega)
      simp [State.get, h2]
  · rw [State.get_setGrad_ne s i g k hk, if_neg (by tauto)]

@[simp] theorem State.length_addGrad (s : State α) (i : Nat) (g : α) :
    (s.addGrad i g).nodes.length = s.nodes.length := by
  simp [State.addGrad]

@[simp] theorem State.get_addGrad (s : State α) (i : Nat) (g : α) (k : Nat) :
    (s.addGrad i g).get k =
      if k = i ∧ i < s.nodes.length then { s.get i with grad := (s.get i).grad + g }
      else s.get k := by
  simp [State.addGrad]

end StateLemmas

section TopoLemmas

theorem buildTopo_zero (s : State α) (v : Nat) (acc : TopoAcc) :
    buildTopo s 0 v acc = acc := rfl

@[simp] theorem finishTopo_visited (v : Nat) (a : TopoAcc) :
    (finishTopo v a).visited = a.visited := rfl

@[simp] theorem finishTopo_topo (v : Nat) (a : TopoAcc) :
    (finishTopo v a).topo = a.topo ++ [v] := rfl

theorem buildTopo_unfold (s : State α) (fuel v : Nat) (acc : TopoAcc) (h : 0 < fuel) :
    buildTopo s fuel v acc =
      if v ∈ acc.visited then acc
      else finishTopo v
        (buildTopoStep (buildTopo s (fuel - 1)) ((s.get v).prev)
          ⟨v :: acc.visited, acc.topo⟩) := by
  cases fuel with
  | zero => omega
  | succ n => simp [buildTopo]

end TopoLemmas

section ShapeLemmas

theorem sameShape_refl (s : State α) : SameShape s s := ⟨rfl, fun _ => ⟨rfl, rfl, rfl, rfl⟩⟩

theorem sameShape_trans {s t u : State α} (h1 : SameShape s t) (h2 : SameShape t u) :
    SameShape s u := by
  obtain ⟨hl1, hf1⟩ := h1
  obtain ⟨hl2, hf2⟩ := h2
  refine ⟨hl1.trans hl2, fun k => ?_⟩
  obtain ⟨a1, b1, c1, d1⟩ := hf1 k
  obtain ⟨a2, b2, c2, d2⟩ := hf2 k
  exact ⟨a1.trans a2, b1.trans b2, c1.trans c2, d1.trans d2⟩

theorem setGrad_sameShape (s : State α) (i : Nat) (g : α) :
    SameShape s (s.setGrad i g) := by
  refine ⟨(State.length_setGrad s i g).symm, fun k => ?_⟩
  rw [State.get_setGrad]
  split
  · rename_i h
    obtain ⟨hk, _⟩ := h
    subst hk
    exact ⟨rfl, rfl, rfl, rfl⟩
  · exact ⟨rfl, rfl, rfl, rfl⟩

theorem addGrad_sameShape (s : State α) (i : Nat) (g : α) :
    SameShape s (s.addGrad i g) := setGrad_sameShape s i _

theorem runBackward_sameShape (s : State α) (v : Nat) :
    SameShape s (runBackward s v) := by
  unfold runBackward
  rcases (s.get v).bwd with _ | ⟨i, j⟩ | ⟨i, j⟩ | ⟨i, n⟩ | i | i
  · exact sameShape_refl s
  · exact sameShape_trans (addGrad_sameShape _ _ _) (addGrad_sameShape _ _ _)
  · exact sameShape_trans (addGrad_sameShape _ _ _) (addGrad_sameShape _ _ _)
  · exact addGrad_sameShape _ _ _
  · exact addGrad_sameShape _ _ _
  · exact addGrad_sameShape _ _ _

theorem foldl_runBackward_sameShape (L : List Nat) (s : State α) :
    SameShape s (L.foldl (fun st v => runBackward st v) s) := by
  induction L generalizing s with
  | nil => exact sameShape_refl s
  | cons v L ih =>
      exact sameShape_trans (runBackward_sameShape s v) (ih (runBackward s v))

theorem backward_sameShape (s : State α) (r : Nat) :
    SameShape s (backward s r) :=
  sameShape_trans (setGrad_sameShape s r 1)
    (foldl_runBackward_sameShape (topoList s r).reverse (s.setGrad r 1))

theorem foldl_setGrad_zero_sameShape (L : List Nat) (s : State α) :
    SameShape s (L.foldl (fun st v => st.setGrad v 0) s) := by
  induction L generalizing s with
  | nil => exact sameShape_refl s
  | cons v L ih =>
      exact sameShape_trans (setGrad_sameShape s v 0) (ih (s.setGrad v 0))

theorem zeroReachable_sameShape (s : State α) (r : Nat) :
    SameShape s (zeroReachable s r) :=
  foldl_setGrad_zero_sameShape (topoList s r) s

/-- A stored backward rule only touches the `grad` fields of its targets. -/
theorem runBackward_grad_not_target (s : State α) (v k : Nat)
    (h : k ∉ (s.get v).bwd.targets) :
    ((runBackward s v).get k).grad = (s.get k).grad := by
  unfold runBackward
  rcases hb : (s.get v).bwd with _ | ⟨i, j⟩ | ⟨i, j⟩ | ⟨i, n⟩ | i | i <;>
    rw [hb] at h <;> simp [BackRule.targets] at h <;>
    simp [State.addGrad, State.get_setGrad] <;>
    first
    | rfl
    | (split <;> simp_all)

/-- Grad fields outside the targets of every listed rule survive the whole
sweep of backward rules. -/
theorem foldl_runBackward_grad (L : List Nat) (s : State α) (k : Nat)
    (h : ∀ v ∈ L, k ∉ (s.get v).bwd.targets) :
    ((L.foldl (fun st v => runBackward st v) s).get k).grad = (s.get k).grad := by
  induction L generalizing s with
  | nil => rfl
  | cons v L ih =>
      rw [List.foldl_cons]
      have hbwd : ∀ w, ((runBackward s v).get w).bwd = (s.get w).bwd := by
        intro w
        exact ((runBackward_sameShape s v).2 w).2.2.2.symm
      rw [ih (runBackward s v) (fun w hw => by rw [hbwd]; exact h w (List.mem_cons_of_mem _ hw)),
        runBackward_grad_not_target s v k (h v (List.mem_cons_self _ _))]

/-- `build_topo` consults only the `_prev` fields, so heaps with identical
children structure produce identical traversals. -/
theorem buildTopo_congr (s t : State α) (h : ∀ v, (s.get v).prev = (t.get v).prev) :
    ∀ (fuel : Nat) (v : Nat) (acc : TopoAcc),
      buildTopo s fuel v acc = buildTopo t fuel v acc := by
  intro fuel
  induction fuel with
  | zero => intro v acc; rfl
  | succ n ih =>
      intro v acc
      have step : ∀ (l : List Nat) (a : TopoAcc),
          buildTopoStep (buildTopo s n) l a = buildTopoStep (buildTopo t n) l a := by
        intro l
        induction l with
        | nil => intro a; rfl
        | cons c cs ihl =>
            intro a
            simp only [buildTopoStep, ih c a, ihl]
      simp only [buildTopo, h v, step]

theorem topoList_congr (s t : State α) (h : ∀ v, (s.get v).prev = (t.get v).prev)
    (r : Nat) : topoList s r = topoList t r := by
  unfold topoList
  rw [buildTopo_congr s t h]

end ShapeLemmas


section DfsMachinery

variable {α : Type} [Field α]

theorem wf_prev_lt (s : State α) (hwf : WF s) :
    ∀ v, ∀ c ∈ (s.get v).prev, c < v := by
  intro v c hc
  by_cases hv : v < s.nodes.length
  · exact (hwf v hv).1 c hc
  · rw [State.get_of_length_le s v (by omega)] at hc
    simp at hc

theorem wf_targets_prev (s : State α) (hwf : WF s) :
    ∀ v, ∀ t ∈ (s.get v).bwd.targets, t ∈ (s.get v).prev := by
  intro v t ht
  by_cases hv : v < s.nodes.length
  · exact (hwf v hv).2 t ht
  · rw [State.get_of_length_le s v (by omega)] at ht ⊢
    simp [BackRule.targets] at ht

theorem wf_targets_lt (s : State α) (hwf : WF s) :
    ∀ v, ∀ t ∈ (s.get v).bwd.targets, t < v := fun v t ht =>
  wf_prev_lt s hwf v t (wf_targets_prev s hwf v t ht)

theorem postOrd_nil (s : State α) : PostOrd s [] := by
  intro i h
  simp at h

theorem postOrd_closed (s : State α) {L : List Nat} (hL : PostOrd s L) :
    ∀ x ∈ L, ∀ c ∈ (s.get x).prev, c ∈ L := by
  intro x hx c hc
  obtain ⟨i, hi, hx⟩ := List.getElem_of_mem hx
  have hg : L.getD i 0 = x := by rw [List.getD_eq_getElem L 0 hi, hx]
  exact List.take_subset i L (hL i hi c (by rw [hg]; exact hc))

theorem reaches_mem_of_postOrd (s : State α) {L : List Nat} (hL : PostOrd s L)
    {v x : Nat} (hv : v ∈ L) (hr : Reaches s v x) : x ∈ L := by
  induction hr with
  | refl w => exact hv
  | step hc _ ih => exact ih (postOrd_closed s hL _ hv _ hc)

theorem postOrd_concat (s : State α) {L : List Nat} {v : Nat} (hL : PostOrd s L)
    (hv : ∀ c ∈ (s.get v).prev, c ∈ L) : PostOrd s (L ++ [v]) := by
  intro i h c hc
  by_cases hi : i < L.length
  · rw [List.getD_eq_getElem _ 0 h, List.getElem_append_left hi,
      ← List.getD_eq_getElem L 0 hi] at hc
    rw [List.take_append_of_le_length (by omega)]
    exact hL i hi c hc
  · have hieq : i = L.length := by simp at h; omega
    subst hieq
    rw [List.getD_eq_getElem _ 0 h] at hc
    simp at hc
    rw [List.take_append_of_le_length (by omega), List.take_length]
    exact hv c hc
end DfsMachinery

section DfsMain

variable {α : Type} [Field α]

theorem dfs_main (s : State α) (hs : ∀ v, ∀ c ∈ (s.get v).prev, c < v) :
    ∀ (fuel v : Nat) (acc : TopoAcc), v < fuel → TopoInv s acc →
      (∀ g ∈ acc.visited, g ∉ acc.topo → v < g) →
      DfsOut s v acc (buildTopo s fuel v acc) := by
  intro fuel
  induction fuel with
  | zero => intro v acc hv; omega
  | succ n ih =>
      have listLemma : ∀ (l : List Nat) (acc : TopoAcc), (∀ c ∈ l, c < n) →
          TopoInv s acc → (∀ c ∈ l, ∀ g ∈ acc.visited, g ∉ acc.topo → c < g) →
          DfsListOut s l acc (buildTopoStep (buildTopo s n) l acc) := by
        intro l
        induction l with
        | nil =>
            intro acc _ hinv _
            exact {
              topo_ext := ⟨[], by simp [buildTopoStep]⟩
              topo_new := fun x hx => Or.inl hx
              vis_mono := fun x hx => hx
              gray_sub := fun g hg hgt => ⟨hg, hgt⟩
              inv := hinv
              mem := by simp
              complete := by simp }
        | cons c cs ihl =>
            intro acc hlt hinv hpre
            have D1 : DfsOut s c acc (buildTopo s n c acc) :=
              ih c acc (hlt c (by simp)) hinv (hpre c (by simp))
            set A1 := buildTopo s n c acc with hA1
            have D2 : DfsListOut s cs A1 (buildTopoStep (buildTopo s n) cs A1) := by
              refine ihl A1 (fun c' hc' => hlt c' (by simp [hc'])) D1.inv ?_
              intro c' hc' g hg hgt
              obtain ⟨hg0, hgt0⟩ := D1.gray_sub g hg hgt
              exact hpre c' (by simp [hc']) g hg0 hgt0
            set A2 := buildTopoStep (buildTopo s n) cs A1 with hA2
            have hstep : buildTopoStep (buildTopo s n) (c :: cs) acc = A2 := by
              simp [buildTopoStep, hA1, hA2]
            rw [hstep]
            obtain ⟨t1, ht1⟩ := D1.topo_ext
            obtain ⟨t2, ht2⟩ := D2.topo_ext
            refine {
              topo_ext := ⟨t1 ++ t2, by rw [ht2, ht1, List.append_assoc]⟩
              topo_new := ?_
              vis_mono := fun x hx => D2.vis_mono x (D1.vis_mono x hx)
              gray_sub := fun g hg hgt => by
                obtain ⟨hg1, hgt1⟩ := D2.gray_sub g hg hgt
                exact D1.gray_sub g hg1 hgt1
              inv := D2.inv
              mem := ?_
              complete := ?_ }
            · intro x hx
              rcases D2.topo_new x hx with hx1 | ⟨c', hc', hle, hr⟩
              · rcases D1.topo_new x hx1 with hx0 | ⟨hle, hr⟩
                · exact Or.inl hx0
                · exact Or.inr ⟨c, by simp, hle, hr⟩
              · exact Or.inr ⟨c', by simp [hc'], hle, hr⟩
            · intro c' hc'
              rcases List.mem_cons.1 hc' with rfl | hc'
              · rw [ht2]
                exact List.mem_append_left _ D1.self_mem
              · exact D2.mem c' hc'
            · intro c' hc' x hr
              rcases List.mem_cons.1 hc' with rfl | hc'
              · rw [ht2]
                exact List.mem_append_left _ (D1.complete x hr)
              · exact D2.complete c' hc' x hr
      intro v acc hv hinv hpre
      by_cases hvis : v ∈ acc.visited
      · have hvt : v ∈ acc.topo := by
          by_contra hcon
          exact absurd (hpre v hvis hcon) (lt_irrefl v)
        have hA : buildTopo s (n + 1) v acc = acc := by
          simp [buildTopo, hvis]
        rw [hA]
        exact {
          topo_ext := ⟨[], by simp⟩
          topo_new := fun x hx => Or.inl hx
          vis_mono := fun x hx => hx
          gray_sub := fun g hg hgt => ⟨hg, hgt⟩
          inv := hinv
          self_mem := hvt
          complete := fun x hr => reaches_mem_of_postOrd s hinv.2.2 hvt hr }
      · have hvt : v ∉ acc.topo := fun hcon => hvis (hinv.2.1 v hcon)
        have hinv1 : TopoInv s ⟨v :: acc.visited, acc.topo⟩ := by
          refine ⟨hinv.1, fun x hx => ?_, hinv.2.2⟩
          exact List.mem_cons_of_mem v (hinv.2.1 x hx)
        have D : DfsListOut s ((s.get v).prev) ⟨v :: acc.visited, acc.topo⟩
            (buildTopoStep (buildTopo s n) ((s.get v).prev)
              ⟨v :: acc.visited, acc.topo⟩) := by
          refine listLemma _ _ (fun c hc => by have := hs v c hc; omega) hinv1 ?_
          intro c hc g hg hgt
          rcases List.mem_cons.1 hg with hgv | hg0
          · rw [hgv]
            exact hs v c hc
          · exact lt_trans (hs v c hc) (hpre g hg0 hgt)
        set A2 := buildTopoStep (buildTopo s n) ((s.get v).prev)
          ⟨v :: acc.visited, acc.topo⟩ with hA2
        obtain ⟨t2, ht2⟩ := D.topo_ext
        have hvA2 : v ∉ A2.topo := by
          intro hcon
          rcases D.topo_new v hcon with hv0 | ⟨c, hc, hle, _⟩
          · exact hvt hv0
          · exact absurd (hs v c hc) (by omega)
        have hA : buildTopo s (n + 1) v acc = ⟨A2.visited, A2.topo ++ [v]⟩ := by
          simp [buildTopo, hvis, finishTopo, hA2]
        rw [hA]
        refine {
          topo_ext := ⟨t2 ++ [v], by rw [ht2]; simp⟩
          topo_new := ?_
          vis_mono := fun x hx => D.vis_mono x (List.mem_cons_of_mem v hx)
          gray_sub := ?_
          inv := ?_
          self_mem := by simp
          complete := ?_ }
        · intro x hx
          rcases List.mem_append.1 hx with hx2 | hxv
          · rcases D.topo_new x hx2 with hx0 | ⟨c, hc, hle, hr⟩
            · exact Or.inl hx0
            · exact Or.inr ⟨le_trans hle (le_of_lt (hs v c hc)), Reaches.step hc hr⟩
          · simp at hxv
            subst hxv
            exact Or.inr ⟨le_refl x, Reaches.refl x⟩
        · intro g hg hgt
          simp at hgt
          obtain ⟨hgt2, hgv⟩ := hgt
          obtain ⟨hg1, hgt1⟩ := D.gray_sub g hg hgt2
          rcases List.mem_cons.1 hg1 with hgv1 | hg0
          · exact absurd hgv1 hgv
          · exact ⟨hg0, hgt1⟩
        · refine ⟨?_, ?_, ?_⟩
          · simp [List.nodup_append, D.inv.1, hvA2]
          · intro x hx
            rcases List.mem_append.1 hx with hx2 | hxv
            · exact D.inv.2.1 x hx2
            · simp at hxv
              subst hxv
              exact D.vis_mono x (by simp)
          · exact postOrd_concat s D.inv.2.2 (fun c hc => D.mem c hc)
        · intro x hr
          cases hr with
          | refl => simp
          | step hc hcw =>
              exact List.mem_append_left _ (D.complete _ hc _ hcw)
end DfsMain

section TopoSpec

variable {α : Type} [Field α]

theorem topoList_out (s : State α) (hwf : WF s) (r : Nat) :
    DfsOut s r ⟨[], []⟩ (buildTopo s (r + 1) r ⟨[], []⟩) :=
  dfs_main s (wf_prev_lt s hwf) (r + 1) r ⟨[], []⟩ (Nat.lt_succ_self r)
    ⟨List.nodup_nil, by simp, postOrd_nil s⟩ (by simp)

theorem topoList_nodup (s : State α) (hwf : WF s) (r : Nat) :
    (topoList s r).Nodup := (topoList_out s hwf r).inv.1

theorem mem_topoList_iff (s : State α) (hwf : WF s) (r : Nat) :
    ∀ v, v ∈ topoList s r ↔ Reaches s r v := by
  intro v
  constructor
  · intro h
    rcases (topoList_out s hwf r).topo_new v h with h0 | ⟨_, hr⟩
    · simp at h0
    · exact hr
  · exact (topoList_out s hwf r).complete v

theorem topoList_postOrd (s : State α) (hwf : WF s) (r : Nat) :
    PostOrd s (topoList s r) := (topoList_out s hwf r).inv.2.2

theorem topoList_le (s : State α) (hwf : WF s) (r : Nat) :
    ∀ v ∈ topoList s r, v ≤ r := by
  intro v hv
  rcases (topoList_out s hwf r).topo_new v hv with h0 | ⟨hle, _⟩
  · simp at h0
  · exact hle

theorem mem_topoList_self (s : State α) (hwf : WF s) (r : Nat) :
    r ∈ topoList s r := (topoList_out s hwf r).self_mem

theorem topoList_getLast (s : State α) (r : Nat) :
    (topoList s r).getLast? = some r := by
  simp [topoList, buildTopo, finishTopo]

end TopoSpec

section ResetLemmas

variable {α : Type} [Field α]

theorem node_ext {a b : Node α} (h1 : a.data = b.data) (h2 : a.grad = b.grad)
    (h3 : a.prev = b.prev) (h4 : a.op = b.op) (h5 : a.bwd = b.bwd) : a = b := by
  cases a; cases b
  simp_all

theorem state_ext (s t : State α) (hl : s.nodes.length = t.nodes.length)
    (h : ∀ k, k < s.nodes.length → s.get k = t.get k) : s = t := by
  cases s with
  | mk ls =>
    cases t with
    | mk lt =>
      congr 1
      refine List.ext_getElem hl (fun i h1 h2 => ?_)
      have := h i h1
      rw [State.get, State.get, List.getD_eq_getElem _ _ h1, List.getD_eq_getElem _ _ h2]
        at this
      exact this

theorem foldl_setGrad_length (L : List Nat) (s : State α) :
    (L.foldl (fun st v => st.setGrad v 0) s).nodes.length = s.nodes.length :=
  ((foldl_setGrad_zero_sameShape L s).1).symm

theorem foldl_setGrad_grad_not_mem (L : List Nat) (s : State α) (k : Nat)
    (h : k ∉ L) :
    ((L.foldl (fun st v => st.setGrad v 0) s).get k).grad = (s.get k).grad := by
  induction L generalizing s with
  | nil => rfl
  | cons v L ih =>
      rw [List.foldl_cons, ih _ (fun hc => h (List.mem_cons_of_mem _ hc))]
      rw [State.get_setGrad, if_neg]
      rintro ⟨rfl, -⟩
      exact h (List.mem_cons_self _ _)

theorem foldl_setGrad_zero_stable (L : List Nat) (s : State α) (k : Nat)
    (h : (s.get k).grad = 0) :
    ((L.foldl (fun st v => st.setGrad v 0) s).get k).grad = 0 := by
  induction L generalizing s with
  | nil => exact h
  | cons v L ih =>
      rw [List.foldl_cons]
      refine ih _ ?_
      rw [State.get_setGrad]
      split <;> simp [h]

theorem foldl_setGrad_zero_mem (L : List Nat) (s : State α) (k : Nat)
    (hk : k ∈ L) (hlen : k < s.nodes.length) :
    ((L.foldl (fun st v => st.setGrad v 0) s).get k).grad = 0 := by
  induction L generalizing s with
  | nil => simp at hk
  | cons v L ih =>
      rw [List.foldl_cons]
      by_cases hkL : k ∈ L
      · exact ih _ hkL (by simp [hlen])
      · have hkv : k = v := by
          rcases List.mem_cons.1 hk with h | h
          · exact h
          · exact absurd h hkL
        subst hkv
        refine foldl_setGrad_zero_stable L _ k ?_
        rw [State.get_setGrad, if_pos ⟨rfl, hlen⟩]

/-- The backward pass does not touch the grad of nodes outside the
traversed (reachable) set. -/
theorem backward_grad_outside (s : State α) (r k : Nat) (hwf : WF s)
    (hk : k ∉ topoList s r) :
    ((backward s r).get k).grad = (s.get k).grad := by
  show (((topoList s r).reverse.foldl (fun st v => runBackward st v)
    (s.setGrad r 1)).get k).grad = (s.get k).grad
  rw [foldl_runBackward_grad, State.get_setGrad, if_neg]
  · rintro ⟨hkr, hrlen⟩
    rw [hkr] at hk
    exact hk (mem_topoList_self s hwf r)
  · intro v hv ht
    rw [((setGrad_sameShape s r 1).2 v).2.2.2.symm] at ht
    have hvt : v ∈ topoList s r := List.mem_reverse.1 hv
    have hsub := wf_targets_prev s hwf v k ht
    exact hk (postOrd_closed s (topoList_postOrd s hwf r) v hvt k hsub)

end ResetLemmas


section Claims

set_option maxHeartbeats 1000000 in
/-- Claim C1: for leaf nodes a, b, c constructed with data 2.0, -3.0 and 10.0,
the expression e = a*b + c has e.data = 4.0, and after e.backward(),
a.grad = -3.0, b.grad = 2.0 and c.grad = 1.0.  Stated over an arbitrary
field, which covers in particular the reals that model the Python floats
(all values involved are exactly representable). -/
theorem claim_C1_end_to_end {α : Type} [Field α] :
    ((addV (mulV (⟨[Value 2, Value (-3), Value 10]⟩ : State α) 0 (.node 1)).1
        (mulV (⟨[Value 2, Value (-3), Value 10]⟩ : State α) 0 (.node 1)).2
        (.node 2)).1.get
      (addV (mulV (⟨[Value 2, Value (-3), Value 10]⟩ : State α) 0 (.node 1)).1
        (mulV (⟨[Value 2, Value (-3), Value 10]⟩ : State α) 0 (.node 1)).2
        (.node 2)).2).data = 4 ∧
    ((backward
        (addV (mulV (⟨[Value 2, Value (-3), Value 10]⟩ : State α) 0 (.node 1)).1
          (mulV (⟨[Value 2, Value (-3), Value 10]⟩ : State α) 0 (.node 1)).2
          (.node 2)).1
        (addV (mulV (⟨[Value 2, Value (-3), Value 10]⟩ : State α) 0 (.node 1)).1
          (mulV (⟨[Value 2, Value (-3), Value 10]⟩ : State α) 0 (.node 1)).2
          (.node 2)).2).get 0).grad = -3 ∧
    ((backward
        (addV (mulV (⟨[Value 2, Value (-3), Value 10]⟩ : State α) 0 (.node 1)).1
          (mulV (⟨[Value 2, Value (-3), Value 10]⟩ : State α) 0 (.node 1)).2
          (.node 2)).1
        (addV (mulV (⟨[Value 2, Value (-3), Value 10]⟩ : State α) 0 (.node 1)).1
          (mulV (⟨[Value 2, Value (-3), Value 10]⟩ : State α) 0 (.node 1)).2
          (.node 2)).2).get 1).grad = 2 ∧
    ((backward
        (addV (mulV (⟨[Value 2, Value (-3), Value 10]⟩ : State α) 0 (.node 1)).1
          (mulV (⟨[Value 2, Value (-3), Value 10]⟩ : State α) 0 (.node 1)).2
          (.node 2)).1
        (addV (mulV (⟨[Value 2, Value (-3), Value 10]⟩ : State α) 0 (.node 1)).1
          (mulV (⟨[Value 2, Value (-3), Value 10]⟩ : State α) 0 (.node 1)).2
          (.node 2)).2).get 2).grad = 1 := by
  have hs : (addV (mulV (⟨[Value 2, Value (-3), Value 10]⟩ : State α) 0 (.node 1)).1
      (mulV (⟨[Value 2, Value (-3), Value 10]⟩ : State α) 0 (.node 1)).2 (.node 2)).1
      = ⟨[Value 2, Value (-3), Value 10, ⟨-6, 0, [0, 1], some "*", .mulR 0 1⟩,
          ⟨4, 0, [3, 2], some "+", .addR 3 2⟩]⟩ := by
    simp [addV, mulV, coerce, Value, State.get, State.push]
    norm_num
  have hr : (addV (mulV (⟨[Value 2, Value (-3), Value 10]⟩ : State α) 0 (.node 1)).1
      (mulV (⟨[Value 2, Value (-3), Value 10]⟩ : State α) 0 (.node 1)).2 (.node 2)).2
      = 4 := by
    simp [addV, mulV, coerce, State.push]
  have ht : topoList (⟨[Value 2, Value (-3), Value 10,
      ⟨-6, 0, [0, 1], some "*", .mulR 0 1⟩,
      ⟨4, 0, [3, 2], some "+", .addR 3 2⟩]⟩ : State α) 4 = [0, 1, 3, 2, 4] := by
    simp (disch := omega) [topoList, buildTopo_unfold, buildTopoStep, State.get]
  have h0 : (⟨[Value 2, Value (-3), Value 10,
      ⟨-6, 0, [0, 1], some "*", .mulR 0 1⟩,
      ⟨4, 0, [3, 2], some "+", .addR 3 2⟩]⟩ : State α).setGrad 4 1
      = ⟨[Value 2, Value (-3), Value 10, ⟨-6, 0, [0, 1], some "*", .mulR 0 1⟩,
          ⟨4, 1, [3, 2], some "+", .addR 3 2⟩]⟩ := by
    simp [State.setGrad, State.get, Value]
  have h1 : runBackward (⟨[Value 2, Value (-3), Value 10,
      ⟨-6, 0, [0, 1], some "*", .mulR 0 1⟩,
      ⟨4, 1, [3, 2], some "+", .addR 3 2⟩]⟩ : State α) 4
      = ⟨[Value 2, Value (-3), ⟨10, 1, [], none, .leaf⟩,
          ⟨-6, 1, [0, 1], some "*", .mulR 0 1⟩,
          ⟨4, 1, [3, 2], some "+", .addR 3 2⟩]⟩ := by
    simp [runBackward, State.get, State.setGrad, State.addGrad, Value]
  have h2 : runBackward (⟨[Value 2, Value (-3), ⟨10, 1, [], none, .leaf⟩,
      ⟨-6, 1, [0, 1], some "*", .mulR 0 1⟩,
      ⟨4, 1, [3, 2], some "+", .addR 3 2⟩]⟩ : State α) 2
      = ⟨[Value 2, Value (-3), ⟨10, 1, [], none, .leaf⟩,
          ⟨-6, 1, [0, 1], some "*", .mulR 0 1⟩,
          ⟨4, 1, [3, 2], some "+", .addR 3 2⟩]⟩ := by
    simp [runBackward, State.get]
  have h3 : runBackward (⟨[Value 2, Value (-3), ⟨10, 1, [], none, .leaf⟩,
      ⟨-6, 1, [0, 1], some "*", .mulR 0 1⟩,
      ⟨4, 1, [3, 2], some "+", .addR 3 2⟩]⟩ : State α) 3
      = ⟨[⟨2, -3, [], none, .leaf⟩, ⟨-3, 2, [], none, .leaf⟩, ⟨10, 1, [], none, .leaf⟩,
          ⟨-6, 1, [0, 1], some "*", .mulR 0 1⟩,
          ⟨4, 1, [3, 2], some "+", .addR 3 2⟩]⟩ := by
    simp [runBackward, State.get, State.setGrad, State.addGrad, Value]
  have h4 : runBackward (⟨[⟨2, -3, [], none, .leaf⟩, ⟨-3, 2, [], none, .leaf⟩,
      ⟨10, 1, [], none, .leaf⟩, ⟨-6, 1, [0, 1], some "*", .mulR 0 1⟩,
      ⟨4, 1, [3, 2], some "+", .addR 3 2⟩]⟩ : State α) 1
      = ⟨[⟨2, -3, [], none, .leaf⟩, ⟨-3, 2, [], none, .leaf⟩, ⟨10, 1, [], none, .leaf⟩,
          ⟨-6, 1, [0, 1], some "*", .mulR 0 1⟩,
          ⟨4, 1, [3, 2], some "+", .addR 3 2⟩]⟩ := by
    simp [runBackward, State.get]
  have h5 : runBackward (⟨[⟨2, -3, [], none, .leaf⟩, ⟨-3, 2, [], none, .leaf⟩,
      ⟨10, 1, [], none, .leaf⟩, ⟨-6, 1, [0, 1], some "*", .mulR 0 1⟩,
      ⟨4, 1, [3, 2], some "+", .addR 3 2⟩]⟩ : State α) 0
      = ⟨[⟨2, -3, [], none, .leaf⟩, ⟨-3, 2, [], none, .leaf⟩, ⟨10, 1, [], none, .leaf⟩,
          ⟨-6, 1, [0, 1], some "*", .mulR 0 1⟩,
          ⟨4, 1, [3, 2], some "+", .addR 3 2⟩]⟩ := by
    simp [runBackward, State.get]
  rw [hs, hr, backward, ht]
  simp only [List.reverse_cons, List.reverse_nil, List.nil_append, List.cons_append,
    List.foldl_cons, List.foldl_nil, h0, h1, h2, h3, h4, h5]
  simp [State.get, Value]

/-- Claim C2: when the same node is both operands of a binary operator its
gradient contributions accumulate: for any leaf x, after (x + x).backward(),
x.grad = 2, and after (x * x).backward(), x.grad = 2 * x.data, even though
the duplicated operand is stored as a single child (the children set
collapses the duplicate). -/
theorem claim_C2_shared_operand {α : Type} [Field α] (s : State α) (i : Nat)
    (hi : i < s.nodes.length)
    (hg : (s.get i).grad = 0) (hp : (s.get i).prev = []) (hb : (s.get i).bwd = .leaf) :
    ((addV s i (.node i)).1.get (addV s i (.node i)).2).prev = [i] ∧
    ((backward (addV s i (.node i)).1 (addV s i (.node i)).2).get i).grad = 2 ∧
    ((mulV s i (.node i)).1.get (mulV s i (.node i)).2).prev = [i] ∧
    ((backward (mulV s i (.node i)).1 (mulV s i (.node i)).2).get i).grad
      = 2 * (s.get i).data := by
  have hd : ([i, i] : List Nat).dedup = [i] := by simp
  have hne : i ≠ s.nodes.length := by omega
  have hne' : s.nodes.length ≠ i := by omega
  have hi1 : i < s.nodes.length + 1 := by omega
  simp (disch := omega) [backward, topoList, buildTopo_unfold, buildTopoStep,
    runBackward, addV, mulV, coerce, hg, hp, hb, hd, hne, hne', hi, hi1]
  constructor
  · norm_num
  · ring

/-- Witness for claim C2: a one-node heap holding the leaf Value(3.0) over ℚ
satisfies every hypothesis, and the theorem applies to it. -/
theorem claim_C2_witness :
    (0 < (⟨[Value (3 : ℚ)]⟩ : State ℚ).nodes.length) ∧
    ((⟨[Value (3 : ℚ)]⟩ : State ℚ).get 0).grad = 0 ∧
    ((⟨[Value (3 : ℚ)]⟩ : State ℚ).get 0).prev = [] ∧
    ((⟨[Value (3 : ℚ)]⟩ : State ℚ).get 0).bwd = .leaf ∧
    (((addV (⟨[Value (3 : ℚ)]⟩ : State ℚ) 0 (.node 0)).1.get
        (addV (⟨[Value (3 : ℚ)]⟩ : State ℚ) 0 (.node 0)).2).prev = [0] ∧
      ((backward (addV (⟨[Value (3 : ℚ)]⟩ : State ℚ) 0 (.node 0)).1
          (addV (⟨[Value (3 : ℚ)]⟩ : State ℚ) 0 (.node 0)).2).get 0).grad = 2 ∧
      ((mulV (⟨[Value (3 : ℚ)]⟩ : State ℚ) 0 (.node 0)).1.get
        (mulV (⟨[Value (3 : ℚ)]⟩ : State ℚ) 0 (.node 0)).2).prev = [0] ∧
      ((backward (mulV (⟨[Value (3 : ℚ)]⟩ : State ℚ) 0 (.node 0)).1
          (mulV (⟨[Value (3 : ℚ)]⟩ : State ℚ) 0 (.node 0)).2).get 0).grad
        = 2 * ((⟨[Value (3 : ℚ)]⟩ : State ℚ).get 0).data) :=
  ⟨by decide, by decide, by decide, by decide,
    claim_C2_shared_operand (⟨[Value (3 : ℚ)]⟩ : State ℚ) 0 (by decide) (by decide)
      (by decide) (by decide)⟩

/-- Claim C3: the power operator fails with the UnsupportedExponentType error
whenever the exponent is itself a node, and succeeds for every constant
(int/float, modelled as integer) exponent. -/
theorem claim_C3_pow_exponent_type {α : Type} [Field α] (s : State α) (i j : Nat)
    (n : ℤ) :
    (powV s i (.node j)).2 = .error .unsupportedExponentType ∧
      ∃ k, (powV s i (.const n)).2 = .ok k :=
  ⟨rfl, _, rfl⟩

/-- Claim C10: a power call with a node exponent fails atomically, before any
node is constructed: the heap is returned exactly as it was (so the base
node's data, grad, children and backward rule are unchanged and no new node
is added to the graph). -/
theorem claim_C10_pow_atomic {α : Type} [Field α] (s : State α) (i j : Nat) :
    (powV s i (.node j)).1 = s ∧
      (powV s i (.node j)).1.get i = s.get i ∧
      (powV s i (.node j)).1.nodes.length = s.nodes.length ∧
      (powV s i (.node j)).2 = .error .unsupportedExponentType :=
  ⟨rfl, rfl, rfl, rfl⟩

set_option maxHeartbeats 1000000 in
/-- Claim C5: the derived operators are definitionally composed from the
primitives and carry no gradient logic of their own: unary negation is
multiplication by the constant -1, subtraction is addition of the negation,
division is multiplication by a power of -1 (all three hold by definition,
mirroring the source).  Consequently, for leaves a, b: (a - b).data equals
a.data - b.data with backward gradients +1 to a and -1 to b, and
(a / b).data equals a.data * b.data ** -1 with backward gradients
1 / b.data to a and -a.data / b.data ** 2 to b. -/
theorem claim_C5_derived_operators {α : Type} [Field α] (da db : α) :
    (∀ (t : State α) (k : Nat), negV t k = mulV t k (.const (-1))) ∧
    (∀ (t : State α) (k l : Nat),
      subV t k (.node l) = addV (negV t l).1 k (.node (negV t l).2)) ∧
    (∀ (t : State α) (k l : Nat),
      divV t k (.node l) = mulV (powConst t l (-1)).1 k (.node (powConst t l (-1)).2)) ∧
    (((subV (⟨[Value da, Value db]⟩ : State α) 0 (.node 1)).1.get
        (subV (⟨[Value da, Value db]⟩ : State α) 0 (.node 1)).2).data = da - db) ∧
    (((backward (subV (⟨[Value da, Value db]⟩ : State α) 0 (.node 1)).1
        (subV (⟨[Value da, Value db]⟩ : State α) 0 (.node 1)).2).get 0).grad = 1) ∧
    (((backward (subV (⟨[Value da, Value db]⟩ : State α) 0 (.node 1)).1
        (subV (⟨[Value da, Value db]⟩ : State α) 0 (.node 1)).2).get 1).grad = -1) ∧
    (((divV (⟨[Value da, Value db]⟩ : State α) 0 (.node 1)).1.get
        (divV (⟨[Value da, Value db]⟩ : State α) 0 (.node 1)).2).data
      = da * db ^ (-1 : ℤ)) ∧
    (((backward (divV (⟨[Value da, Value db]⟩ : State α) 0 (.node 1)).1
        (divV (⟨[Value da, Value db]⟩ : State α) 0 (.node 1)).2).get 0).grad
      = 1 / db) ∧
    (((backward (divV (⟨[Value da, Value db]⟩ : State α) 0 (.node 1)).1
        (divV (⟨[Value da, Value db]⟩ : State α) 0 (.node 1)).2).get 1).grad
      = -da / db ^ 2) := by
  have hs1 : (subV (⟨[Value da, Value db]⟩ : State α) 0 (.node 1)).1
      = ⟨[Value da, Value db, Value (-1), ⟨-db, 0, [1, 2], some "*", .mulR 1 2⟩,
          ⟨da + -db, 0, [0, 3], some "+", .addR 0 3⟩]⟩ := by
    simp [subV, negV, addV, mulV, coerce, Value, State.get, State.push]
  have hr1 : (subV (⟨[Value da, Value db]⟩ : State α) 0 (.node 1)).2 = 4 := by
    simp [subV, negV, addV, mulV, coerce, State.push]
  have ht1 : topoList (⟨[Value da, Value db, Value (-1),
      ⟨-db, 0, [1, 2], some "*", .mulR 1 2⟩,
      ⟨da + -db, 0, [0, 3], some "+", .addR 0 3⟩]⟩ : State α) 4 = [0, 1, 2, 3, 4] := by
    simp (disch := omega) [topoList, buildTopo_unfold, buildTopoStep, State.get, Value]
  have k0 : (⟨[Value da, Value db, Value (-1),
      ⟨-db, 0, [1, 2], some "*", .mulR 1 2⟩,
      ⟨da + -db, 0, [0, 3], some "+", .addR 0 3⟩]⟩ : State α).setGrad 4 1
      = ⟨[Value da, Value db, Value (-1), ⟨-db, 0, [1, 2], some "*", .mulR 1 2⟩,
          ⟨da + -db, 1, [0, 3], some "+", .addR 0 3⟩]⟩ := by
    simp [State.setGrad, State.get, Value]
  have k1 : runBackward (⟨[Value da, Value db, Value (-1),
      ⟨-db, 0, [1, 2], some "*", .mulR 1 2⟩,
      ⟨da + -db, 1, [0, 3], some "+", .addR 0 3⟩]⟩ : State α) 4
      = ⟨[⟨da, 1, [], none, .leaf⟩, Value db, Value (-1),
          ⟨-db, 1, [1, 2], some "*", .mulR 1 2⟩,
          ⟨da + -db, 1, [0, 3], some "+", .addR 0 3⟩]⟩ := by
    simp [runBackward, State.get, State.setGrad, State.addGrad, Value]
  have k2 : runBackward (⟨[⟨da, 1, [], none, .leaf⟩, Value db, Value (-1),
      ⟨-db, 1, [1, 2], some "*", .mulR 1 2⟩,
      ⟨da + -db, 1, [0, 3], some "+", .addR 0 3⟩]⟩ : State α) 3
      = ⟨[⟨da, 1, [], none, .leaf⟩, ⟨db, -1, [], none, .leaf⟩, ⟨-1, db, [], none, .leaf⟩,
          ⟨-db, 1, [1, 2], some "*", .mulR 1 2⟩,
          ⟨da + -db, 1, [0, 3], some "+", .addR 0 3⟩]⟩ := by
    simp [runBackward, State.get, State.setGrad, State.addGrad, Value]
  have k3 : runBackward (⟨[⟨da, 1, [], none, .leaf⟩, ⟨db, -1, [], none, .leaf⟩,
      ⟨-1, db, [], none, .leaf⟩, ⟨-db, 1, [1, 2], some "*", .mulR 1 2⟩,
      ⟨da + -db, 1, [0, 3], some "+", .addR 0 3⟩]⟩ : State α) 2
      = ⟨[⟨da, 1, [], none, .leaf⟩, ⟨db, -1, [], none, .leaf⟩, ⟨-1, db, [], none, .leaf⟩,
          ⟨-db, 1, [1, 2], some "*", .mulR 1 2⟩,
          ⟨da + -db, 1, [0, 3], some "+", .addR 0 3⟩]⟩ := by
    simp [runBackward, State.get]
  have k4 : runBackward (⟨[⟨da, 1, [], none, .leaf⟩, ⟨db, -1, [], none, .leaf⟩,
      ⟨-1, db, [], none, .leaf⟩, ⟨-db, 1, [1, 2], some "*", .mulR 1 2⟩,
      ⟨da + -db, 1, [0, 3], some "+", .addR 0 3⟩]⟩ : State α) 1
      = ⟨[⟨da, 1, [], none, .leaf⟩, ⟨db, -1, [], none, .leaf⟩, ⟨-1, db, [], none, .leaf⟩,
          ⟨-db, 1, [1, 2], some "*", .mulR 1 2⟩,
          ⟨da + -db, 1, [0, 3], some "+", .addR 0 3⟩]⟩ := by
    simp [runBackward, State.get]
  have k5 : runBackward (⟨[⟨da, 1, [], none, .leaf⟩, ⟨db, -1, [], none, .leaf⟩,
      ⟨-1, db, [], none, .leaf⟩, ⟨-db, 1, [1, 2], some "*", .mulR 1 2⟩,
      ⟨da + -db, 1, [0, 3], some "+", .addR 0 3⟩]⟩ : State α) 0
      = ⟨[⟨da, 1, [], none, .leaf⟩, ⟨db, -1, [], none, .leaf⟩, ⟨-1, db, [], none, .leaf⟩,
          ⟨-db, 1, [1, 2], some "*", .mulR 1 2⟩,
          ⟨da + -db, 1, [0, 3], some "+", .addR 0 3⟩]⟩ := by
    simp [runBackward, State.get]
  have hs2 : (divV (⟨[Value da, Value db]⟩ : State α) 0 (.node 1)).1
      = ⟨[Value da, Value db, ⟨db ^ (-1 : ℤ), 0, [1], some "**", .powR 1 (-1)⟩,
          ⟨da * db ^ (-1 : ℤ), 0, [0, 2], some "*", .mulR 0 2⟩]⟩ := by
    simp [divV, mulV, powConst, coerce, Value, State.get, State.push]
  have hr2 : (divV (⟨[Value da, Value db]⟩ : State α) 0 (.node 1)).2 = 3 := by
    simp [divV, mulV, powConst, coerce, State.push]
  have ht2 : topoList (⟨[Value da, Value db,
      ⟨db ^ (-1 : ℤ), 0, [1], some "**", .powR 1 (-1)⟩,
      ⟨da * db ^ (-1 : ℤ), 0, [0, 2], some "*", .mulR 0 2⟩]⟩ : State α) 3
      = [0, 1, 2, 3] := by
    simp (disch := omega) [topoList, buildTopo_unfold, buildTopoStep, State.get, Value]
  have m0 : (⟨[Value da, Value db, ⟨db ^ (-1 : ℤ), 0, [1], some "**", .powR 1 (-1)⟩,
      ⟨da * db ^ (-1 : ℤ), 0, [0, 2], some "*", .mulR 0 2⟩]⟩ : State α).setGrad 3 1
      = ⟨[Value da, Value db, ⟨db ^ (-1 : ℤ), 0, [1], some "**", .powR 1 (-1)⟩,
          ⟨da * db ^ (-1 : ℤ), 1, [0, 2], some "*", .mulR 0 2⟩]⟩ := by
    simp [State.setGrad, State.get, Value]
  have m1 : runBackward (⟨[Value da, Value db,
      ⟨db ^ (-1 : ℤ), 0, [1], some "**", .powR 1 (-1)⟩,
      ⟨da * db ^ (-1 : ℤ), 1, [0, 2], some "*", .mulR 0 2⟩]⟩ : State α) 3
      = ⟨[⟨da, db ^ (-1 : ℤ), [], none, .leaf⟩, Value db,
          ⟨db ^ (-1 : ℤ), da, [1], some "**", .powR 1 (-1)⟩,
          ⟨da * db ^ (-1 : ℤ), 1, [0, 2], some "*", .mulR 0 2⟩]⟩ := by
    simp [runBackward, State.get, State.setGrad, State.addGrad, Value]
  have m2 : runBackward (⟨[⟨da, db ^ (-1 : ℤ), [], none, .leaf⟩, Value db,
      ⟨db ^ (-1 : ℤ), da, [1], some "**", .powR 1 (-1)⟩,
      ⟨da * db ^ (-1 : ℤ), 1, [0, 2], some "*", .mulR 0 2⟩]⟩ : State α) 2
      = ⟨[⟨da, db ^ (-1 : ℤ), [], none, .leaf⟩, ⟨db, -(db ^ (-2 : ℤ) * da), [], none, .leaf⟩,
          ⟨db ^ (-1 : ℤ), da, [1], some "**", .powR 1 (-1)⟩,
          ⟨da * db ^ (-1 : ℤ), 1, [0, 2], some "*", .mulR 0 2⟩]⟩ := by
    simp [runBackward, State.get, State.setGrad, State.addGrad, Value]
  have m3 : runBackward (⟨[⟨da, db ^ (-1 : ℤ), [], none, .leaf⟩,
      ⟨db, -(db ^ (-2 : ℤ) * da), [], none, .leaf⟩,
      ⟨db ^ (-1 : ℤ), da, [1], some "**", .powR 1 (-1)⟩,
      ⟨da * db ^ (-1 : ℤ), 1, [0, 2], some "*", .mulR 0 2⟩]⟩ : State α) 1
      = ⟨[⟨da, db ^ (-1 : ℤ), [], none, .leaf⟩,
          ⟨db, -(db ^ (-2 : ℤ) * da), [], none, .leaf⟩,
          ⟨db ^ (-1 : ℤ), da, [1], some "**", .powR 1 (-1)⟩,
          ⟨da * db ^ (-1 : ℤ), 1, [0, 2], some "*", .mulR 0 2⟩]⟩ := by
    simp [runBackward, State.get]
  have m4 : runBackward (⟨[⟨da, db ^ (-1 : ℤ), [], none, .leaf⟩,
      ⟨db, -(db ^ (-2 : ℤ) * da), [], none, .leaf⟩,
      ⟨db ^ (-1 : ℤ), da, [1], some "**", .powR 1 (-1)⟩,
      ⟨da * db ^ (-1 : ℤ), 1, [0, 2], some "*", .mulR 0 2⟩]⟩ : State α) 0
      = ⟨[⟨da, db ^ (-1 : ℤ), [], none, .leaf⟩,
          ⟨db, -(db ^ (-2 : ℤ) * da), [], none, .leaf⟩,
          ⟨db ^ (-1 : ℤ), da, [1], some "**", .powR 1 (-1)⟩,
          ⟨da * db ^ (-1 : ℤ), 1, [0, 2], some "*", .mulR 0 2⟩]⟩ := by
    simp [runBackward, State.get]
  refine ⟨fun t k => rfl, fun t k l => rfl, fun t k l => rfl, ?_, ?_, ?_, ?_, ?_, ?_⟩
  · rw [hs1, hr1]; simp [State.get]; ring
  · rw [hs1, hr1, backward, ht1]
    simp only [List.reverse_cons, List.reverse_nil, List.nil_append, List.cons_append,
      List.foldl_cons, List.foldl_nil, k0, k1, k2, k3, k4, k5]
    simp [State.get]
  · rw [hs1, hr1, backward, ht1]
    simp only [List.reverse_cons, List.reverse_nil, List.nil_append, List.cons_append,
      List.foldl_cons, List.foldl_nil, k0, k1, k2, k3, k4, k5]
    simp [State.get]
  · rw [hs2, hr2]; simp [State.get]
  · rw [hs2, hr2, backward, ht2]
    simp only [List.reverse_cons, List.reverse_nil, List.nil_append, List.cons_append,
      List.foldl_cons, List.foldl_nil, m0, m1, m2, m3, m4]
    simp [State.get]
  · rw [hs2, hr2, backward, ht2]
    simp only [List.reverse_cons, List.reverse_nil, List.nil_append, List.cons_append,
      List.foldl_cons, List.foldl_nil, m0, m1, m2, m3, m4]
    simp [State.get, zpow_two, pow_two, mul_inv]
    ring

/-- Claim C9: every operator call (coercion, add, multiply, negation, power,
subtraction, division, exp, tanh) leaves every existing node - in particular
its operands - entirely unchanged at construction time, and the backward pass
mutates only `grad` fields: it preserves every node's data, children, op
label and stored rule. -/
theorem claim_C9_frame {α : Type} [Field α] (expf : α → α) (s : State α) (i r k : Nat)
    (o : Operand α) (pa : PowArg) (n : ℤ) (hk : k < s.nodes.length) :
    ((coerce s o).1.get k = s.get k) ∧
    ((addV s i o).1.get k = s.get k) ∧
    ((mulV s i o).1.get k = s.get k) ∧
    ((negV s i).1.get k = s.get k) ∧
    ((powConst s i n).1.get k = s.get k) ∧
    ((powV s i pa).1.get k = s.get k) ∧
    ((subV s i o).1.get k = s.get k) ∧
    ((divV s i o).1.get k = s.get k) ∧
    ((expV expf s i).1.get k = s.get k) ∧
    ((tanhV expf s i).1.get k = s.get k) ∧
    (((backward s r).get k).data = (s.get k).data) ∧
    (((backward s r).get k).prev = (s.get k).prev) ∧
    (((backward s r).get k).op = (s.get k).op) ∧
    (((backward s r).get k).bwd = (s.get k).bwd) := by
  have e1 : k ≠ s.nodes.length := by omega
  have e2 : k ≠ s.nodes.length + 1 := by omega
  have e3 : k ≠ s.nodes.length + 1 + 1 := by omega
  have e4 : k ≠ s.nodes.length + 2 := by omega
  have hb := (backward_sameShape s r).2 k
  refine ⟨?_, ?_, ?_, ?_, ?_, ?_, ?_, ?_, ?_, ?_,
    hb.1.symm, hb.2.1.symm, hb.2.2.1.symm, hb.2.2.2.symm⟩ <;>
    rcases o with j | c <;> rcases pa with j2 | n2 <;>
    simp [coerce, addV, mulV, negV, powConst, powV, subV, divV, expV, tanhV,
      e1, e2, e3, e4]

/-- Witness for claim C9: the frame theorem applies to a concrete one-node
heap over ℚ with concrete operand choices. -/
theorem claim_C9_witness :
    0 < (⟨[Value (3 : ℚ)]⟩ : State ℚ).nodes.length ∧
    ((backward (⟨[Value (3 : ℚ)]⟩ : State ℚ) 0).get 0).data
      = ((⟨[Value (3 : ℚ)]⟩ : State ℚ).get 0).data :=
  ⟨by decide,
    (claim_C9_frame id (⟨[Value (3 : ℚ)]⟩ : State ℚ) 0 0 0 (.const 2) (.const 2) 2
      (by decide)).2.2.2.2.2.2.2.2.2.2.1⟩

/-- Claim C7: the backward driver's traversal visits each reachable node
exactly once (identity-keyed visited set, so membership in the traversal is
exactly reachability by node id), produces a post-order sequence in which
every node appears after all of its children, ends with the root (so the
reversed walk runs the root's rule first), and the driver is exactly the
fold of the rules over the reversed sequence (with the root's grad set to 1
beforehand), so each visited node's rule runs exactly once per call. -/
theorem claim_C7_traversal (s : State α) (r : Nat) (hwf : WF s) :
    (topoList s r).Nodup ∧
    (∀ v, v ∈ topoList s r ↔ Reaches s r v) ∧
    PostOrd s (topoList s r) ∧
    (topoList s r).getLast? = some r ∧
    backward s r = (topoList s r).reverse.foldl (fun st v => runBackward st v)
      (s.setGrad r 1) :=
  ⟨topoList_nodup s hwf r, mem_topoList_iff s hwf r, topoList_postOrd s hwf r,
    topoList_getLast s r, rfl⟩

/-- Witness for claim C7: a three-node heap (two leaves and a sum node)
over ℚ is well-formed, and the theorem applies to it. -/
theorem claim_C7_witness :
    WF (⟨[Value (1 : ℚ), Value (2 : ℚ), ⟨3, 0, [0, 1], some "+", .addR 0 1⟩]⟩ : State ℚ) ∧
    (topoList (⟨[Value (1 : ℚ), Value (2 : ℚ),
      ⟨3, 0, [0, 1], some "+", .addR 0 1⟩]⟩ : State ℚ) 2).Nodup :=
  ⟨by decide,
    (claim_C7_traversal (⟨[Value (1 : ℚ), Value (2 : ℚ),
      ⟨3, 0, [0, 1], some "+", .addR 0 1⟩]⟩ : State ℚ) 2 (by decide)).1⟩

/-- Claim C4: for any node y of a well-formed (finite, acyclic) heap,
immediately after y.backward() returns, y.grad = 1.0, regardless of y's grad
before the call (the driver assigns the root's grad rather than accumulating
into it, and no rule of the traversal can reach back up to the root). -/
theorem claim_C4_root_grad (s : State α) (r : Nat) (hwf : WF s)
    (hr : r < s.nodes.length) : ((backward s r).get r).grad = 1 := by
  show (((topoList s r).reverse.foldl (fun st v => runBackward st v)
    (s.setGrad r 1)).get r).grad = 1
  rw [foldl_runBackward_grad]
  · simp [State.get_setGrad, hr]
  · intro v hv ht
    rw [((setGrad_sameShape s r 1).2 v).2.2.2.symm] at ht
    have hvt : v ∈ topoList s r := List.mem_reverse.1 hv
    have hvr : v ≤ r := topoList_le s hwf r v hvt
    have := wf_targets_lt s hwf v r ht
    omega

/-- Witness for claim C4: a one-node ℚ heap is well-formed and its root's
grad is 1 after backward. -/
theorem claim_C4_witness :
    WF (⟨[Value (5 : ℚ)]⟩ : State ℚ) ∧ 0 < (⟨[Value (5 : ℚ)]⟩ : State ℚ).nodes.length ∧
    ((backward (⟨[Value (5 : ℚ)]⟩ : State ℚ) 0).get 0).grad = 1 :=
  ⟨by decide, by decide, claim_C4_root_grad (⟨[Value (5 : ℚ)]⟩ : State ℚ) 0
    (by decide) (by decide)⟩

/-- Claim C6, amended: for a well-formed graph whose reachable nodes all
carry grad 0 before the first call (as in a freshly built expression graph),
the round trip - backward, reset every reachable node's grad to 0, backward
again - leaves every node with a grad identical to its grad after the first
call.  The zero-grads precondition is forced by the counterexample below:
the driver accumulates into whatever grads it finds. -/
theorem claim_C6_reset (s : State α) (r : Nat) (hwf : WF s)
    (hz : ∀ v ∈ topoList s r, (s.get v).grad = 0) :
    ∀ v, ((backward (zeroReachable (backward s r) r) r).get v).grad
      = ((backward s r).get v).grad := by
  have hshape : SameShape s (backward s r) := backward_sameShape s r
  have hprev : ∀ v, ((backward s r).get v).prev = (s.get v).prev :=
    fun v => ((hshape).2 v).2.1.symm
  have key : zeroReachable (backward s r) r = s := by
    unfold zeroReachable
    rw [topoList_congr (backward s r) s hprev r]
    have hshapeZ : SameShape s ((topoList s r).foldl (fun st v => st.setGrad v 0)
        (backward s r)) :=
      sameShape_trans hshape (foldl_setGrad_zero_sameShape _ _)
    refine state_ext _ s (hshapeZ.1).symm (fun k hklen => ?_)
    obtain ⟨hdata, hprevk, hop, hbwd⟩ := hshapeZ.2 k
    refine node_ext hdata.symm ?_ hprevk.symm hop.symm hbwd.symm
    by_cases hk : k ∈ topoList s r
    · rw [foldl_setGrad_zero_mem _ _ _ hk
          (by rw [foldl_setGrad_length] at hklen; exact hklen), hz k hk]
    · rw [foldl_setGrad_grad_not_mem _ _ _ hk, backward_grad_outside s r k hwf hk]
  rw [key]
  intro v
  rfl

set_option maxHeartbeats 1000000 in
/-- Counterexample to claim C6 as stated: in the fixture heap (built only
through the public operations: x := Value(3.0); y1 := x + x; y1.backward();
y2 := x + x) the first backward call on y2 finds x.grad = 2 from the earlier
pass and leaves x.grad = 4, while the reset round trip leaves x.grad = 2, so
the two runs do not agree on every graph. -/
theorem claim_C6_counterexample :
    ((backward (zeroReachable (backward resetScenario.1 resetScenario.2)
        resetScenario.2) resetScenario.2).get 0).grad
      ≠ ((backward resetScenario.1 resetScenario.2).get 0).grad := by
  have hA : addV (⟨[Value (3 : ℚ)]⟩ : State ℚ) 0 (.node 0)
      = (⟨[Value 3, ⟨6, 0, [0], some "+", .addR 0 0⟩]⟩, 1) := by
    simp [addV, coerce, Value, State.get, State.push]
    norm_num
  have htB : topoList (⟨[Value 3, ⟨6, 0, [0], some "+", .addR 0 0⟩]⟩ : State ℚ) 1
      = [0, 1] := by decide
  have hB : backward (⟨[Value 3, ⟨6, 0, [0], some "+", .addR 0 0⟩]⟩ : State ℚ) 1
      = ⟨[⟨3, 2, [], none, .leaf⟩, ⟨6, 1, [0], some "+", .addR 0 0⟩]⟩ := by
    rw [backward, htB]
    simp only [List.reverse_cons, List.reverse_nil, List.nil_append, List.cons_append,
      List.foldl_cons, List.foldl_nil]
    simp [runBackward, State.get, State.setGrad, State.addGrad, Value]
    norm_num
  have hS2 : resetScenario
      = (⟨[⟨3, 2, [], none, .leaf⟩, ⟨6, 1, [0], some "+", .addR 0 0⟩,
          ⟨6, 0, [0], some "+", .addR 0 0⟩]⟩, 2) := by
    rw [resetScenario, hA]
    simp only [hB]
    simp [addV, coerce, State.get, State.push]
    norm_num
  have htF : topoList (⟨[⟨3, 2, [], none, .leaf⟩, ⟨6, 1, [0], some "+", .addR 0 0⟩,
      ⟨6, 0, [0], some "+", .addR 0 0⟩]⟩ : State ℚ) 2 = [0, 2] := by decide
  have hF1 : backward (⟨[⟨3, 2, [], none, .leaf⟩, ⟨6, 1, [0], some "+", .addR 0 0⟩,
      ⟨6, 0, [0], some "+", .addR 0 0⟩]⟩ : State ℚ) 2
      = ⟨[⟨3, 4, [], none, .leaf⟩, ⟨6, 1, [0], some "+", .addR 0 0⟩,
          ⟨6, 1, [0], some "+", .addR 0 0⟩]⟩ := by
    rw [backward, htF]
    simp only [List.reverse_cons, List.reverse_nil, List.nil_append, List.cons_append,
      List.foldl_cons, List.foldl_nil]
    simp [runBackward, State.get, State.setGrad, State.addGrad]
    norm_num
  have htF2 : topoList (⟨[⟨3, 4, [], none, .leaf⟩, ⟨6, 1, [0], some "+", .addR 0 0⟩,
      ⟨6, 1, [0], some "+", .addR 0 0⟩]⟩ : State ℚ) 2 = [0, 2] := by decide
  have hZ : zeroReachable (⟨[⟨3, 4, [], none, .leaf⟩, ⟨6, 1, [0], some "+", .addR 0 0⟩,
      ⟨6, 1, [0], some "+", .addR 0 0⟩]⟩ : State ℚ) 2
      = ⟨[⟨3, 0, [], none, .leaf⟩, ⟨6, 1, [0], some "+", .addR 0 0⟩,
          ⟨6, 0, [0], some "+", .addR 0 0⟩]⟩ := by
    rw [zeroReachable, htF2]
    simp [State.setGrad, State.get]
  have htZ : topoList (⟨[⟨3, 0, [], none, .leaf⟩, ⟨6, 1, [0], some "+", .addR 0 0⟩,
      ⟨6, 0, [0], some "+", .addR 0 0⟩]⟩ : State ℚ) 2 = [0, 2] := by decide
  have hF2 : backward (⟨[⟨3, 0, [], none, .leaf⟩, ⟨6, 1, [0], some "+", .addR 0 0⟩,
      ⟨6, 0, [0], some "+", .addR 0 0⟩]⟩ : State ℚ) 2
      = ⟨[⟨3, 2, [], none, .leaf⟩, ⟨6, 1, [0], some "+", .addR 0 0⟩,
          ⟨6, 1, [0], some "+", .addR 0 0⟩]⟩ := by
    rw [backward, htZ]
    simp only [List.reverse_cons, List.reverse_nil, List.nil_append, List.cons_append,
      List.foldl_cons, List.foldl_nil]
    simp [runBackward, State.get, State.setGrad, State.addGrad]
    norm_num
  rw [hS2]
  simp only [hF1, hZ, hF2]
  simp [State.get]

/-- Witness for the amended claim C6: a freshly built x + x graph over ℚ
satisfies both hypotheses, and the theorem applies to it. -/
theorem claim_C6_witness :
    WF (⟨[Value (3 : ℚ), ⟨6, 0, [0], some "+", .addR 0 0⟩]⟩ : State ℚ) ∧
    (∀ v ∈ topoList (⟨[Value (3 : ℚ), ⟨6, 0, [0], some "+", .addR 0 0⟩]⟩ : State ℚ) 1,
      ((⟨[Value (3 : ℚ), ⟨6, 0, [0], some "+", .addR 0 0⟩]⟩ : State ℚ).get v).grad = 0) ∧
    ((backward (zeroReachable (backward (⟨[Value (3 : ℚ),
        ⟨6, 0, [0], some "+", .addR 0 0⟩]⟩ : State ℚ) 1) 1) 1).get 0).grad
      = ((backward (⟨[Value (3 : ℚ), ⟨6, 0, [0], some "+", .addR 0 0⟩]⟩ : State ℚ) 1).get 0).grad :=
  ⟨by decide, by decide,
    claim_C6_reset (⟨[Value (3 : ℚ), ⟨6, 0, [0], some "+", .addR 0 0⟩]⟩ : State ℚ) 1
      (by decide) (by decide) 0⟩

/-- The source computes the forward value as (e^(2x)-1)/(e^(2x)+1); this is
the mathematical tanh. -/
theorem tanh_formula (x : ℝ) :
    (Real.exp (2 * x) - 1) / (Real.exp (2 * x) + 1) = Real.tanh x := by
  rw [Real.tanh_eq_sinh_div_cosh, Real.sinh_eq, Real.cosh_eq, Real.exp_neg]
  have hx : Real.exp x ≠ 0 := (Real.exp_pos x).ne'
  have h2 : Real.exp (2 * x) = Real.exp x * Real.exp x := by
    rw [two_mul, Real.exp_add]
  rw [h2]
  field_simp

/-- The forward formula is strictly between -1 and 1 for every real x. -/
theorem tanh_data_bounds (x : ℝ) :
    -1 < (Real.exp (2 * x) - 1) / (Real.exp (2 * x) + 1) ∧
      (Real.exp (2 * x) - 1) / (Real.exp (2 * x) + 1) < 1 := by
  have ht : 0 < Real.exp (2 * x) := Real.exp_pos _
  have hden : 0 < Real.exp (2 * x) + 1 := by linarith
  constructor
  · rw [lt_div_iff₀ hden]
    linarith
  · rw [div_lt_one hden]
    linarith

/-- Claim C8: the value of a.tanh() lies strictly in the open interval
(-1, 1), and the gradient its backward rule pushes to a equals
(1 - tanh(a.data)^2) * out.grad, stated over ℝ with the mathematical
exponential standing for math.exp.  The second conjunct runs the stored
tanh rule after assigning the output node an arbitrary grad g. -/
theorem claim_C8_tanh (s : State ℝ) (i : Nat) (g : ℝ) (hi : i < s.nodes.length) :
    (-1 < ((tanhV Real.exp s i).1.get (tanhV Real.exp s i).2).data ∧
      ((tanhV Real.exp s i).1.get (tanhV Real.exp s i).2).data < 1) ∧
    ((runBackward ((tanhV Real.exp s i).1.setGrad (tanhV Real.exp s i).2 g)
        (tanhV Real.exp s i).2).get i).grad
      = (s.get i).grad + (1 - Real.tanh ((s.get i).data) ^ 2) * g := by
  have hne : i ≠ s.nodes.length := by omega
  have hi1 : i < s.nodes.length + 1 := by omega
  constructor
  · simp only [tanhV, State.push_snd, State.get_push_self]
    exact tanh_data_bounds ((s.get i).data)
  · simp (disch := omega) [tanhV, runBackward, State.addGrad, hne, hi, hi1,
      tanh_formula]

/-- Witness for claim C8: the theorem applies to the one-leaf heap holding
Value(0.0) over ℝ. -/
theorem claim_C8_witness :
    0 < (⟨[Value (0 : ℝ)]⟩ : State ℝ).nodes.length ∧
    (-1 < ((tanhV Real.exp (⟨[Value (0 : ℝ)]⟩ : State ℝ) 0).1.get
        (tanhV Real.exp (⟨[Value (0 : ℝ)]⟩ : State ℝ) 0).2).data ∧
      ((tanhV Real.exp (⟨[Value (0 : ℝ)]⟩ : State ℝ) 0).1.get
        (tanhV Real.exp (⟨[Value (0 : ℝ)]⟩ : State ℝ) 0).2).data < 1) :=
  ⟨by decide, (claim_C8_tanh (⟨[Value (0 : ℝ)]⟩ : State ℝ) 0 1 (by decide)).1⟩

end Claims

end Micrograd
